import Mathlib

/-!
Verification development for the docling-bedrock-plugin repository.

Shallow embedding of:
  - docling_bedrock_plugin/pipeline_options.py
      (the PictureDescriptionBedrockApiOptions configuration record)
  - examples/bedrock_image_description.py
      (add_bedrock_picture_descriptions, which splices Bedrock image
       descriptions back into a DoclingDocument)
  - examples/image_description.py (describe_image)

External effects (the remote Bedrock call, picture.get_image, the model
constructor) are modelled as explicit parameters: the call to
bedrock_model._annotate_images is a function argument returning
`Except Unit (List String)` (raising or returning the description list),
get_image is a stored per-picture outcome `Except Unit (Option Nat)`
(raise / falsy / an image), and constructor success is a Bool.
Python float fields are embedded as rationals; the defaults involved
(30, 0.5) are exact, and no arithmetic is performed on them.
-/

namespace DoclingBedrock

/-- Embedding of PictureDescriptionBedrockApiOptions
(pipeline_options.py, lines 26-42).  The inherited
PictureDescriptionBaseOptions fields belong to the external docling
package and are not part of this repository. -/
structure PictureDescriptionBedrockApiOptions where
  model_id : String := "anthropic.claude-3-sonnet-20240229-v1:0"
  region_name : Option String := none
  profile_name : Option String := none
  timeout : ℚ := 30
  max_workers : Int := 3
  temperature : ℚ := 0.5
  max_tokens : Int := 200
  top_k : Int := 250
  prompt : String := "Describe this image in a few sentences."
  provenance : String := "amazon-bedrock"
deriving DecidableEq

/-- The ClassVar kind tag of the options record (pipeline_options.py line 26). -/
def PictureDescriptionBedrockApiOptions.kind : String := "bedrock_api"

/-- Modelled from the spec: the adapter class PictureDescriptionBedrockApiModel
(picture_description_model.py) is not among the source files; the spec and the
options docstring say the provenance field is the identifier recorded alongside
generated text, so the model exposes the configured provenance tag unchanged. -/
def bedrockModelProvenance (opts : PictureDescriptionBedrockApiOptions) : String :=
  opts.provenance

/-- Embedding of docling PictureDescriptionData: the description payload
appended to a picture, carrying the generated text and the provenance tag. -/
structure PictureDescriptionData where
  text : String
  provenance : String
deriving DecidableEq

/-- A picture annotation entry: either a description payload or some
pre-existing annotation of another type (abstracted by a tag). -/
inductive AnnotationData where
  | desc (d : PictureDescriptionData)
  | other (tag : String)
deriving DecidableEq

/-- Embedding of docling RefItem: a reference by cref string.
(The source reads the reference back through the .ref attribute, which we
model as yielding the same cref string.) -/
structure RefItem where
  cref : String
deriving DecidableEq

/-- Embedding of a docling TextItem (self_ref, label, text, parent cref). -/
structure TextItem where
  self_ref : String
  label : String
  text : String
  parent : Option String
deriving DecidableEq

/-- Embedding of a docling group node: only its self_ref matters here. -/
structure GroupItem where
  self_ref : String
deriving DecidableEq

instance : DecidableEq (Except Unit (Option Nat)) := fun a b =>
  match a, b with
  | .error x, .error y => isTrue (by cases x; cases y; rfl)
  | .ok x, .ok y =>
    if h : x = y then isTrue (congrArg Except.ok h)
    else isFalse fun hh => h (by injection hh)
  | .error _, .ok _ => isFalse fun hh => Except.noConfusion hh
  | .ok _, .error _ => isFalse fun hh => Except.noConfusion hh

/-- Embedding of a docling PictureItem.  The image field records the outcome
of picture.get_image(doc): an exception, a falsy value, or an image
(abstracted to a Nat). -/
structure PictureItem where
  self_ref : String
  parent : Option String
  captions : List RefItem
  annotations : List AnnotationData
  image : Except Unit (Option Nat)
deriving DecidableEq

/-- Embedding of the DoclingDocument parts the example script touches. -/
structure DoclingDocument where
  pictures : List PictureItem
  texts : List TextItem
  groups : List GroupItem
deriving DecidableEq

/-- The cref of doc.body, the default parent for new captions. -/
def bodyRef : String := "#/body"

/-- The DocItemLabel.CAPTION label value. -/
def CAPTION : String := "caption"

/-- Embedding of doc.add_text: appends a new text item with a fresh
self_ref (docling assigns "#/texts/i" for the i-th text) under the given
parent, and returns it. -/
def DoclingDocument.add_text (doc : DoclingDocument) (text label parentRef : String) :
    DoclingDocument × TextItem :=
  let item : TextItem :=
    { self_ref := "#/texts/" ++ toString doc.texts.length
      label := label
      text := text
      parent := some parentRef }
  ({ doc with texts := doc.texts ++ [item] }, item)

/-- `next((t for t in doc.texts if t.self_ref == ref), None)`:
find the first text item with the given self_ref. -/
def findText (ts : List TextItem) (ref : String) : Option TextItem :=
  ts.find? fun t => t.self_ref == ref

/-- In-place mutation `caption_item.text += add` on the first text item
whose self_ref is ref (no such item: the list is unchanged, mirroring the
isinstance/None guard in the source). -/
def appendToFirstText (ts : List TextItem) (ref add : String) : List TextItem :=
  match ts with
  | [] => []
  | t :: rest =>
    if t.self_ref == ref then { t with text := t.text ++ add } :: rest
    else t :: appendToFirstText rest ref add

/-- Parent resolution for a new caption (bedrock_image_description.py,
lines 140-149): the parent cref when it names a text or group of the
document, doc.body otherwise.  Only the self_ref of the chosen parent is
observable downstream, so the resolver returns that cref. -/
def resolveParentRef (doc : DoclingDocument) (parentRef : Option String) : String :=
  match parentRef with
  | none => bodyRef
  | some r =>
    match doc.texts.find? (fun t => t.self_ref == r) with
    | some t => t.self_ref
    | none =>
      match doc.groups.find? (fun g => g.self_ref == r) with
      | some g => g.self_ref
      | none => bodyRef

/-- The guard `description.startswith("Error") or description.startswith("Unsupported")`.
Python str.startswith tests a code-point-sequence
relation, embedded here on String.data. -/
def errorish (d : String) : Bool :=
  "Error".data.isPrefixOf d.data || "Unsupported".data.isPrefixOf d.data

/-- The caption text appended to an existing caption:
`"\n\nImage Description: " + description`. -/
def captionAppendText (d : String) : String :=
  "\n\nImage Description: " ++ d

/-- The text of a freshly created caption:
`"\n\nImage Description: ".strip() + description` (note: strip removes the
trailing space). -/
def newCaptionText (d : String) : String :=
  "Image Description:" ++ d

/-- One iteration of the splicing loop (bedrock_image_description.py,
lines 118-160) for a non-error description d on the picture at index i:
append the description payload to its annotations, then extend the first
existing caption if there is one, otherwise create a new caption text item
and append a reference to it. -/
def spliceGood (doc : DoclingDocument) (i : Nat) (d prov : String) : DoclingDocument :=
  match doc.pictures.get? i with
  | none => doc
  | some pic =>
    match pic.captions with
    | r :: _ =>
      { doc with
          pictures := doc.pictures.set i
            { pic with annotations := pic.annotations ++ [AnnotationData.desc ⟨d, prov⟩] }
          texts := appendToFirstText doc.texts r.cref (captionAppendText d) }
    | [] =>
      let res := doc.add_text (newCaptionText d) CAPTION (resolveParentRef doc pic.parent)
      { res.1 with
          pictures := res.1.pictures.set i
            { pic with
                annotations := pic.annotations ++ [AnnotationData.desc ⟨d, prov⟩]
                captions := [⟨res.2.self_ref⟩] } }

/-- One iteration of the splicing loop including the error guard
(line 119): error/unsupported descriptions attach nothing. -/
def spliceOne (doc : DoclingDocument) (i : Nat) (d prov : String) : DoclingDocument :=
  if errorish d then doc else spliceGood doc i d prov

/-- `if img:` after a successful get_image: the picture yielded a usable image. -/
def retrievable (p : PictureItem) : Bool :=
  match p.image with
  | .ok (some _) => true
  | _ => false

/-- The pictures_to_process extraction loop (lines 92-101), keeping each
picture together with its index in doc.pictures. -/
def picturesToProcess (doc : DoclingDocument) : List (Nat × PictureItem) :=
  doc.pictures.enum.filter fun q => retrievable q.2

/-- The images_to_process list built by the same loop. -/
def imagesToProcess (doc : DoclingDocument) : List Nat :=
  (picturesToProcess doc).filterMap fun q =>
    match q.2.image with
    | .ok (some n) => some n
    | _ => none

/-- `zip(pictures_to_process, descriptions)`, with each picture represented
by its index in doc.pictures. -/
def processedPairs (doc : DoclingDocument) (descriptions : List String) :
    List (Nat × String) :=
  ((picturesToProcess doc).map Prod.fst).zip descriptions

/-- The whole splicing loop: left fold of spliceOne over the
zipped (picture index, description) pairs. -/
def spliceAll (prov : String) (doc : DoclingDocument) (pairs : List (Nat × String)) :
    DoclingDocument :=
  pairs.foldl (fun d q => spliceOne d q.1 q.2 prov) doc

/-- Embedding of add_bedrock_picture_descriptions
(bedrock_image_description.py, lines 56-162).  initOk models whether the
PictureDescriptionBedrockApiModel constructor succeeds; annotateImages
models list(bedrock_model._annotate_images(images)), which may raise. -/
def add_bedrock_picture_descriptions (doc : DoclingDocument)
    (bedrock_options : PictureDescriptionBedrockApiOptions)
    (enable_remote_services : Bool) (initOk : Bool)
    (annotateImages : List Nat → Except Unit (List String)) : DoclingDocument :=
  if !enable_remote_services then doc
  else if !initOk then doc
  else
    let imgs := imagesToProcess doc
    if imgs.isEmpty then doc
    else
      match annotateImages imgs with
      | .error _ => doc
      | .ok descriptions =>
        spliceAll (bedrockModelProvenance bedrock_options) doc
          (processedPairs doc descriptions)

/-- Well-formedness check used as a hypothesis: the first caption reference
of every picture that has one names some text item of the document. -/
def capResolves (doc : DoclingDocument) : Bool :=
  doc.pictures.all fun p =>
    match p.captions.head? with
    | none => true
    | some r => doc.texts.any fun t => t.self_ref == r.cref

/-- pat occurs as a contiguous piece of s. -/
def strContains (s pat : String) : Prop :=
  ∃ a b, s = a ++ pat ++ b

/-- One list of text items evolves into another: every item survives with
its self_ref intact and its text only extended at the end. -/
def textsExtend (ts ts' : List TextItem) : Prop :=
  ∀ t ∈ ts, ∃ t' ∈ ts', t'.self_ref = t.self_ref ∧ ∃ s, t'.text = t.text ++ s

/-- Modelled from the spec: the adapter (picture_description_model.py, not
among the source files) submits the images of a batch to the remote API
concurrently in a bounded worker pool of max_workers threads.  The dispatch
is modelled as successive waves of in-flight calls, each wave holding at
most W calls. -/
def dispatchWaves (W : Nat) : List Nat → List (List Nat)
  | [] => []
  | x :: xs => (x :: xs.take (W - 1)) :: dispatchWaves W (xs.drop (W - 1))
termination_by l => l.length
decreasing_by
  simp only [List.length_cons, List.length_drop]
  omega

/-- Embedding of describe_image (image_description.py, lines 25-72).
initE models the model constructor, loadE models Image.open, ann models
list(bedrock_model._annotate_images([img])); each may raise with a
message e, turned into "Error: " ++ e by the except clause. -/
def describe_image (initE : Except String Unit) (loadE : Except String Nat)
    (ann : Nat → Except String (List String)) : String :=
  match initE with
  | .error e => "Error: " ++ e
  | .ok _ =>
    match loadE with
    | .error e => "Error: " ++ e
    | .ok img =>
      match ann img with
      | .error e => "Error: " ++ e
      | .ok results =>
        match results with
        | [] => "No description was generated"
        | d :: _ => d

/-! ## Theorems -/

/-! ### Helper lemmas -/

theorem strContains_of_append (a pat : String) : strContains (a ++ pat) pat :=
  ⟨a, "", by rw [String.append_empty]⟩

theorem strContains_append_right (s u pat : String) (h : strContains s pat) :
    strContains (s ++ u) pat := by
  obtain ⟨a, b, rfl⟩ := h
  exact ⟨a, b ++ u, by rw [String.append_assoc (a ++ pat) b u]⟩

theorem textsExtend_refl (ts : List TextItem) : textsExtend ts ts := by
  intro t ht
  exact ⟨t, ht, rfl, "", (String.append_empty t.text).symm⟩

theorem textsExtend_trans (t1 t2 t3 : List TextItem)
    (h12 : textsExtend t1 t2) (h23 : textsExtend t2 t3) : textsExtend t1 t3 := by
  intro t ht
  obtain ⟨u, hu, hru, s, hs⟩ := h12 t ht
  obtain ⟨v, hv, hrv, s', hs'⟩ := h23 u hu
  refine ⟨v, hv, hrv.trans hru, s ++ s', ?_⟩
  rw [hs', hs, String.append_assoc]

theorem textsExtend_append (ts l : List TextItem) : textsExtend ts (ts ++ l) := by
  intro t ht
  exact ⟨t, List.mem_append_left l ht, rfl, "", (String.append_empty t.text).symm⟩

theorem appendToFirstText_extends (ts : List TextItem) (ref add : String) :
    textsExtend ts (appendToFirstText ts ref add) := by
  induction ts with
  | nil => intro t ht; cases ht
  | cons x rest ih =>
    intro t ht
    rw [appendToFirstText]
    by_cases hx : (x.self_ref == ref) = true
    · rw [if_pos hx]
      rcases List.mem_cons.mp ht with h | h
      · subst h
        exact ⟨_, List.mem_cons_self _ _, rfl, add, rfl⟩
      · exact ⟨t, List.mem_cons_of_mem _ h, rfl, "", (String.append_empty t.text).symm⟩
    · rw [if_neg hx]
      rcases List.mem_cons.mp ht with h | h
      · subst h
        exact ⟨t, List.mem_cons_self _ _, rfl, "", (String.append_empty t.text).symm⟩
      · obtain ⟨t', ht', hr, s, hs⟩ := ih t h
        exact ⟨t', List.mem_cons_of_mem _ ht', hr, s, hs⟩

theorem appendToFirstText_hit (ts : List TextItem) (ref add : String)
    (h : ∃ t ∈ ts, t.self_ref = ref) :
    ∃ t' ∈ appendToFirstText ts ref add, t'.self_ref = ref ∧
      ∃ s, t'.text = s ++ add := by
  induction ts with
  | nil => obtain ⟨t, ht, _⟩ := h; cases ht
  | cons x rest ih =>
    rw [appendToFirstText]
    by_cases hx : (x.self_ref == ref) = true
    · rw [if_pos hx]
      exact ⟨_, List.mem_cons_self _ _, beq_iff_eq.mp hx, x.text, rfl⟩
    · rw [if_neg hx]
      obtain ⟨t, ht, hr⟩ := h
      rcases List.mem_cons.mp ht with hh | hh
      · subst hh
        exact absurd (beq_iff_eq.mpr hr) hx
      · obtain ⟨t', ht', hr', s, hs⟩ := ih ⟨t, hh, hr⟩
        exact ⟨t', List.mem_cons_of_mem _ ht', hr', s, hs⟩

theorem textsExtend_preserves_ref (ts ts' : List TextItem) (ref : String)
    (hext : textsExtend ts ts') (h : ∃ t ∈ ts, t.self_ref = ref) :
    ∃ t' ∈ ts', t'.self_ref = ref := by
  obtain ⟨t, ht, hr⟩ := h
  obtain ⟨t', ht', hr', _, _⟩ := hext t ht
  exact ⟨t', ht', hr.symm ▸ hr'⟩

theorem textsExtend_preserves_contains (ts ts' : List TextItem) (ref pat : String)
    (hext : textsExtend ts ts')
    (h : ∃ t ∈ ts, t.self_ref = ref ∧ strContains t.text pat) :
    ∃ t' ∈ ts', t'.self_ref = ref ∧ strContains t'.text pat := by
  obtain ⟨t, ht, hr, hc⟩ := h
  obtain ⟨t', ht', hr', s, hs⟩ := hext t ht
  refine ⟨t', ht', hr.symm ▸ hr', ?_⟩
  rw [hs]
  exact strContains_append_right t.text s pat hc

theorem spliceOne_get_ne (doc : DoclingDocument) (i j : Nat) (d prov : String)
    (h : j ≠ i) :
    (spliceOne doc i d prov).pictures.get? j = doc.pictures.get? j := by
  unfold spliceOne spliceGood
  split
  · rfl
  · split
    · rfl
    · split
      · exact List.get?_set_ne _ _ (Ne.symm h)
      · simp only [DoclingDocument.add_text]
        exact List.get?_set_ne _ _ (Ne.symm h)

theorem spliceOne_texts_extend (doc : DoclingDocument) (i : Nat) (d prov : String) :
    textsExtend doc.texts (spliceOne doc i d prov).texts := by
  unfold spliceOne spliceGood
  split
  · exact textsExtend_refl _
  · split
    · exact textsExtend_refl _
    · split
      · exact appendToFirstText_extends _ _ _
      · simp only [DoclingDocument.add_text]
        exact textsExtend_append _ _

theorem spliceOne_step (doc : DoclingDocument) (i : Nat) (d prov : String)
    (j : Nat) (pic : PictureItem) (hp : doc.pictures.get? j = some pic) :
    ∃ pic1, (spliceOne doc i d prov).pictures.get? j = some pic1 ∧
      pic1.self_ref = pic.self_ref ∧ pic1.parent = pic.parent ∧ pic1.image = pic.image ∧
      (pic1 = pic ∨
        (j = i ∧
          pic1.annotations = pic.annotations ++ [AnnotationData.desc ⟨d, prov⟩] ∧
          (pic1.captions = pic.captions ∨ (pic.captions = [] ∧ ∃ r, pic1.captions = [r])))) := by
  by_cases hd : errorish d = true
  · refine ⟨pic, ?_, rfl, rfl, rfl, Or.inl rfl⟩
    unfold spliceOne
    rw [if_pos hd]
    exact hp
  · by_cases hij : j = i
    · subst hij
      have hlt : j < doc.pictures.length := List.get?_eq_some.mp hp |>.1
      unfold spliceOne spliceGood
      rw [if_neg hd]
      split
      · rename_i heq
        rw [hp] at heq
        exact Option.noConfusion heq
      · rename_i pic2 heq
        rw [hp] at heq
        obtain rfl : pic = pic2 := Option.some.inj heq
        split
        · rename_i r rest hc
          exact ⟨{ pic with annotations :=
                pic.annotations ++ [AnnotationData.desc ⟨d, prov⟩] },
            List.get?_set_eq_of_lt _ hlt, rfl, rfl, rfl,
            Or.inr ⟨rfl, rfl, Or.inl rfl⟩⟩
        · rename_i hc
          exact ⟨{ pic with
                annotations := pic.annotations ++ [AnnotationData.desc ⟨d, prov⟩]
                captions := [⟨"#/texts/" ++ toString doc.texts.length⟩] },
            List.get?_set_eq_of_lt _ hlt, rfl, rfl, rfl,
            Or.inr ⟨rfl, rfl, Or.inr ⟨hc, ⟨_, rfl⟩⟩⟩⟩
    · refine ⟨pic, ?_, rfl, rfl, rfl, Or.inl rfl⟩
      rw [spliceOne_get_ne doc i j d prov hij]
      exact hp

theorem spliceOne_target (doc : DoclingDocument) (i : Nat) (d prov : String)
    (hd : errorish d = false) (pic : PictureItem) (hp : doc.pictures.get? i = some pic) :
    ∃ pic1, (spliceOne doc i d prov).pictures.get? i = some pic1 ∧
      pic1.annotations = pic.annotations ++ [AnnotationData.desc ⟨d, prov⟩] ∧
      ((pic.captions = [] ∧ ∃ r, pic1.captions = [r] ∧
          ∃ t ∈ (spliceOne doc i d prov).texts, t.self_ref = r.cref ∧
            strContains t.text d) ∨
        (∃ r l, pic.captions = r :: l ∧ pic1.captions = pic.captions ∧
          ((∃ t ∈ doc.texts, t.self_ref = r.cref) →
            ∃ t ∈ (spliceOne doc i d prov).texts, t.self_ref = r.cref ∧
              strContains t.text d))) := by
  have hlt : i < doc.pictures.length := List.get?_eq_some.mp hp |>.1
  have hd' : ¬errorish d = true := by simp [hd]
  unfold spliceOne spliceGood
  rw [if_neg hd']
  split
  · rename_i heq
    rw [hp] at heq
    exact Option.noConfusion heq
  · rename_i pic2 heq
    rw [hp] at heq
    obtain rfl : pic = pic2 := Option.some.inj heq
    split
    · rename_i r rest hc
      refine ⟨{ pic with annotations :=
            pic.annotations ++ [AnnotationData.desc ⟨d, prov⟩] },
        List.get?_set_eq_of_lt _ hlt, rfl, Or.inr ⟨r, rest, hc, rfl, ?_⟩⟩
      intro hres
      obtain ⟨t', ht', hr', s, hs⟩ :=
        appendToFirstText_hit doc.texts r.cref (captionAppendText d) hres
      refine ⟨t', ht', hr', ?_⟩
      rw [hs]
      show strContains (s ++ ("\n\nImage Description: " ++ d)) d
      rw [← String.append_assoc]
      exact strContains_of_append _ d
    · rename_i hc
      refine ⟨{ pic with
            annotations := pic.annotations ++ [AnnotationData.desc ⟨d, prov⟩]
            captions := [⟨"#/texts/" ++ toString doc.texts.length⟩] },
        List.get?_set_eq_of_lt _ hlt, rfl,
        Or.inl ⟨hc, ⟨_, rfl, ?_⟩⟩⟩
      refine ⟨_, List.mem_append_right doc.texts (List.mem_singleton_self _), rfl, ?_⟩
      exact strContains_of_append "Image Description:" d

theorem spliceAll_get_ne (prov : String) (pairs : List (Nat × String)) :
    ∀ (doc : DoclingDocument) (i : Nat), i ∉ pairs.map Prod.fst →
      (spliceAll prov doc pairs).pictures.get? i = doc.pictures.get? i := by
  induction pairs with
  | nil => intro doc i _; rfl
  | cons q rest ih =>
    intro doc i hi
    rw [List.map_cons] at hi
    have h1 : i ≠ q.1 := fun e => hi (e ▸ List.mem_cons_self _ _)
    have h2 : i ∉ rest.map Prod.fst := fun hm => hi (List.mem_cons_of_mem _ hm)
    show (spliceAll prov (spliceOne doc q.1 q.2 prov) rest).pictures.get? i = _
    rw [ih _ i h2, spliceOne_get_ne doc q.1 i q.2 prov h1]

theorem spliceAll_texts_extend (prov : String) (pairs : List (Nat × String)) :
    ∀ doc, textsExtend doc.texts (spliceAll prov doc pairs).texts := by
  induction pairs with
  | nil => intro doc; exact textsExtend_refl _
  | cons q rest ih =>
    intro doc
    exact textsExtend_trans _ _ _ (spliceOne_texts_extend doc q.1 q.2 prov)
      (ih (spliceOne doc q.1 q.2 prov))

theorem spliceAll_frame (prov : String) (pairs : List (Nat × String)) :
    ∀ (doc : DoclingDocument) (j : Nat) (pic : PictureItem),
      doc.pictures.get? j = some pic →
      ∃ pic', (spliceAll prov doc pairs).pictures.get? j = some pic' ∧
        pic'.self_ref = pic.self_ref ∧ pic'.parent = pic.parent ∧
        pic'.image = pic.image ∧
        (∃ tail, pic'.annotations = pic.annotations ++ tail ∧
          ∀ a ∈ tail, ∃ d, (j, d) ∈ pairs ∧ a = AnnotationData.desc ⟨d, prov⟩) ∧
        (pic'.captions = pic.captions ∨
          (pic.captions = [] ∧ ∃ r, pic'.captions = [r])) := by
  induction pairs with
  | nil =>
    intro doc j pic hp
    exact ⟨pic, hp, rfl, rfl, rfl,
      ⟨[], (List.append_nil _).symm, by intro a ha; cases ha⟩, Or.inl rfl⟩
  | cons q rest ih =>
    intro doc j pic hp
    obtain ⟨pic1, hp1, hs1, hpar1, him1, hrel⟩ := spliceOne_step doc q.1 q.2 prov j pic hp
    obtain ⟨pic', hp', hs', hpar', him', ⟨tail, htail, htm⟩, hcap⟩ := ih _ j pic1 hp1
    refine ⟨pic', hp', hs'.trans hs1, hpar'.trans hpar1, him'.trans him1, ?_, ?_⟩
    · rcases hrel with rfl | ⟨rfl, hann1, _⟩
      · refine ⟨tail, htail, ?_⟩
        intro a ha
        obtain ⟨d, hd, he⟩ := htm a ha
        exact ⟨d, List.mem_cons_of_mem _ hd, he⟩
      · refine ⟨[AnnotationData.desc ⟨q.2, prov⟩] ++ tail, ?_, ?_⟩
        · rw [htail, hann1, List.append_assoc]
        · intro a ha
          rcases List.mem_append.mp ha with ha | ha
          · rw [List.mem_singleton.mp ha]
            exact ⟨q.2, List.mem_cons_self _ _, rfl⟩
          · obtain ⟨d, hd, he⟩ := htm a ha
            exact ⟨d, List.mem_cons_of_mem _ hd, he⟩
    · rcases hrel with rfl | ⟨_, _, hcap1⟩
      · exact hcap
      · rcases hcap1 with hcc | ⟨he, r, hr⟩
        · rcases hcap with hc | ⟨hc0, r, hr⟩
          · exact Or.inl (hc.trans hcc)
          · exact Or.inr ⟨hcc ▸ hc0, r, hr⟩
        · rcases hcap with hc | ⟨hc0, _, _⟩
          · exact Or.inr ⟨he, r, hc.trans hr⟩
          · rw [hr] at hc0
            exact absurd hc0 (List.cons_ne_nil r [])

theorem spliceAll_target (prov : String) (pairs : List (Nat × String)) :
    ∀ (doc : DoclingDocument) (k i : Nat) (d : String),
      (pairs.map Prod.fst).Pairwise (· ≠ ·) →
      pairs.get? k = some (i, d) → errorish d = false →
      ∀ pic, doc.pictures.get? i = some pic →
      ∃ pic', (spliceAll prov doc pairs).pictures.get? i = some pic' ∧
        pic'.annotations = pic.annotations ++ [AnnotationData.desc ⟨d, prov⟩] ∧
        ((pic.captions = [] ∧ ∃ r, pic'.captions = [r] ∧
            ∃ t ∈ (spliceAll prov doc pairs).texts, t.self_ref = r.cref ∧
              strContains t.text d) ∨
          (∃ r l, pic.captions = r :: l ∧ pic'.captions = pic.captions ∧
            ((∃ t ∈ doc.texts, t.self_ref = r.cref) →
              ∃ t ∈ (spliceAll prov doc pairs).texts, t.self_ref = r.cref ∧
                strContains t.text d))) := by
  induction pairs with
  | nil => intro doc k i d _ hk; simp at hk
  | cons q rest ih =>
    intro doc k i d hpw hk hd pic hp
    rw [List.map_cons, List.pairwise_cons] at hpw
    obtain ⟨hq, hpwrest⟩ := hpw
    cases k with
    | zero =>
      obtain rfl : q = (i, d) := Option.some.inj hk
      obtain ⟨pic1, hp1, hann1, hcap1⟩ := spliceOne_target doc i d prov hd pic hp
      have hino : i ∉ rest.map Prod.fst := fun hm => (hq i hm) rfl
      have hfix := spliceAll_get_ne prov rest (spliceOne doc i d prov) i hino
      have hext := spliceAll_texts_extend prov rest (spliceOne doc i d prov)
      refine ⟨pic1, ?_, hann1, ?_⟩
      · show (spliceAll prov (spliceOne doc i d prov) rest).pictures.get? i = some pic1
        rw [hfix]
        exact hp1
      · rcases hcap1 with ⟨hc0, r, hcr, hres⟩ | ⟨r, l, hc0, hcr, himp⟩
        · exact Or.inl ⟨hc0, r, hcr,
            textsExtend_preserves_contains _ _ _ _ hext hres⟩
        · refine Or.inr ⟨r, l, hc0, hcr, ?_⟩
          intro hresolve
          exact textsExtend_preserves_contains _ _ _ _ hext (himp hresolve)
    | succ k' =>
      have hik : (i, d) ∈ rest := List.get?_mem hk
      have hi : i ∈ rest.map Prod.fst := List.mem_map.mpr ⟨(i, d), hik, rfl⟩
      have hij : q.1 ≠ i := hq i hi
      have hp1 : (spliceOne doc q.1 q.2 prov).pictures.get? i = some pic := by
        rw [spliceOne_get_ne doc q.1 i q.2 prov (Ne.symm hij)]
        exact hp
      obtain ⟨pic', hfold, hann, hcap⟩ :=
        ih (spliceOne doc q.1 q.2 prov) k' i d hpwrest hk hd pic hp1
      refine ⟨pic', hfold, hann, ?_⟩
      rcases hcap with ⟨hc0, r, hcr, hres⟩ | ⟨r, l, hc0, hcr, himp⟩
      · exact Or.inl ⟨hc0, r, hcr, hres⟩
      · refine Or.inr ⟨r, l, hc0, hcr, ?_⟩
        intro hresolve
        exact himp (textsExtend_preserves_ref _ _ _
          (spliceOne_texts_extend doc q.1 q.2 prov) hresolve)

theorem spliceAll_skip (prov : String) (pairs : List (Nat × String)) :
    ∀ (doc : DoclingDocument) (k i : Nat) (d : String),
      (pairs.map Prod.fst).Pairwise (· ≠ ·) →
      pairs.get? k = some (i, d) → errorish d = true →
      (spliceAll prov doc pairs).pictures.get? i = doc.pictures.get? i := by
  induction pairs with
  | nil => intro doc k i d _ hk; simp at hk
  | cons q rest ih =>
    intro doc k i d hpw hk hd
    rw [List.map_cons, List.pairwise_cons] at hpw
    obtain ⟨hq, hpwrest⟩ := hpw
    cases k with
    | zero =>
      obtain rfl : q = (i, d) := Option.some.inj hk
      have hino : i ∉ rest.map Prod.fst := fun hm => (hq i hm) rfl
      have hskip : spliceOne doc i d prov = doc := by
        unfold spliceOne
        rw [if_pos hd]
      show (spliceAll prov (spliceOne doc i d prov) rest).pictures.get? i = _
      rw [hskip, spliceAll_get_ne prov rest doc i hino]
    | succ k' =>
      have hik : (i, d) ∈ rest := List.get?_mem hk
      have hi : i ∈ rest.map Prod.fst := List.mem_map.mpr ⟨(i, d), hik, rfl⟩
      have hij : q.1 ≠ i := hq i hi
      show (spliceAll prov (spliceOne doc q.1 q.2 prov) rest).pictures.get? i = _
      rw [ih _ k' i d hpwrest hk hd, spliceOne_get_ne doc q.1 i q.2 prov (Ne.symm hij)]

theorem zip_fst_sublist (l1 : List Nat) (l2 : List String) :
    List.Sublist ((l1.zip l2).map Prod.fst) l1 := by
  induction l1 generalizing l2 with
  | nil => simp
  | cons x xs ih =>
    cases l2 with
    | nil => simp
    | cons y ys => simpa using List.Sublist.cons₂ x (ih ys)

theorem picturesToProcess_fst_sublist (doc : DoclingDocument) :
    List.Sublist ((picturesToProcess doc).map Prod.fst)
      (List.range doc.pictures.length) := by
  have h1 : List.Sublist (picturesToProcess doc) doc.pictures.enum :=
    List.filter_sublist _
  have h2 := h1.map Prod.fst
  rw [List.enum_map_fst] at h2
  exact h2

theorem processedPairs_fst_pairwise (doc : DoclingDocument) (ds : List String) :
    ((processedPairs doc ds).map Prod.fst).Pairwise (· ≠ ·) := by
  have h1 : List.Sublist ((processedPairs doc ds).map Prod.fst)
      ((picturesToProcess doc).map Prod.fst) := zip_fst_sublist _ _
  have h2 := h1.trans (picturesToProcess_fst_sublist doc)
  exact ((List.pairwise_lt_range _).sublist h2).imp Nat.ne_of_lt

theorem retrievable_iff (p : PictureItem) :
    retrievable p = true ↔ ∃ n, p.image = Except.ok (some n) := by
  unfold retrievable
  cases him : p.image with
  | error e => simp
  | ok o =>
    cases o with
    | none => simp
    | some m => simp

theorem processedPairs_index (doc : DoclingDocument) (ds : List String)
    (k i : Nat) (d : String)
    (hk : (processedPairs doc ds).get? k = some (i, d)) :
    ∃ pic, doc.pictures.get? i = some pic ∧ retrievable pic = true := by
  have hmem : (i, d) ∈ processedPairs doc ds := List.get?_mem hk
  have hi : i ∈ (processedPairs doc ds).map Prod.fst :=
    List.mem_map.mpr ⟨(i, d), hmem, rfl⟩
  have hi2 : i ∈ (picturesToProcess doc).map Prod.fst :=
    (zip_fst_sublist _ _).subset hi
  obtain ⟨q, hq, hqi⟩ := List.mem_map.mp hi2
  rw [picturesToProcess, List.mem_filter] at hq
  obtain ⟨hqe, hqr⟩ := hq
  have hget := List.mem_enum_iff_get?.mp hqe
  exact ⟨q.2, by rw [← hqi]; exact hget, hqr⟩

theorem imagesToProcess_nonempty (doc : DoclingDocument) (q : Nat × PictureItem)
    (hq : q ∈ picturesToProcess doc) : (imagesToProcess doc).isEmpty = false := by
  have hr : retrievable q.2 = true := (List.mem_filter.mp hq).2
  obtain ⟨n, hn⟩ := (retrievable_iff q.2).mp hr
  have hmem : n ∈ imagesToProcess doc :=
    List.mem_filterMap.mpr ⟨q, hq, by rw [hn]⟩
  cases he : (imagesToProcess doc).isEmpty
  · rfl
  · rw [List.isEmpty_iff] at he
    rw [he] at hmem
    cases hmem

theorem add_bedrock_run (doc : DoclingDocument)
    (opts : PictureDescriptionBedrockApiOptions)
    (ann : List Nat → Except Unit (List String)) (ds : List String)
    (hne : (imagesToProcess doc).isEmpty = false)
    (hann : ann (imagesToProcess doc) = .ok ds) :
    add_bedrock_picture_descriptions doc opts true true ann =
      spliceAll (bedrockModelProvenance opts) doc (processedPairs doc ds) := by
  unfold add_bedrock_picture_descriptions
  simp only [Bool.not_true, if_false, hne, hann, Bool.false_eq_true]

theorem capResolves_sound (doc : DoclingDocument) (h : capResolves doc = true) :
    ∀ p ∈ doc.pictures, ∀ r l, p.captions = r :: l →
      ∃ t ∈ doc.texts, t.self_ref = r.cref := by
  intro p hp r l hc
  have hall := (List.all_eq_true.mp h) p hp
  rw [hc] at hall
  simp only [List.head?] at hall
  obtain ⟨t, ht, hbeq⟩ := List.any_eq_true.mp hall
  exact ⟨t, ht, beq_iff_eq.mp hbeq⟩

theorem add_bedrock_noop_of_empty (doc : DoclingDocument)
    (opts : PictureDescriptionBedrockApiOptions)
    (ann : List Nat → Except Unit (List String))
    (h : (imagesToProcess doc).isEmpty = true) :
    add_bedrock_picture_descriptions doc opts true true ann = doc := by
  unfold add_bedrock_picture_descriptions
  simp [h]

theorem processedPairs_nonempty_images (doc : DoclingDocument) (ds : List String)
    (k i : Nat) (d : String)
    (hk : (processedPairs doc ds).get? k = some (i, d)) :
    (imagesToProcess doc).isEmpty = false := by
  have hmem : (i, d) ∈ processedPairs doc ds := List.get?_mem hk
  have hi : i ∈ (processedPairs doc ds).map Prod.fst :=
    List.mem_map.mpr ⟨(i, d), hmem, rfl⟩
  have hi2 : i ∈ (picturesToProcess doc).map Prod.fst :=
    (zip_fst_sublist _ _).subset hi
  obtain ⟨q, hq, _⟩ := List.mem_map.mp hi2
  exact imagesToProcess_nonempty doc q hq

/-! ### Claim theorems -/

/-- C2: the configuration record consists of exactly the ten fields the spec
lists, with the defaults stated in the source: model identifier, region,
credentials profile, timeout, worker count, temperature, max tokens, top-k,
prompt template and provenance tag (the base options are inherited from the
external docling package), plus the bedrock_api kind tag. -/
theorem options_record_exact_fields :
    ({} : PictureDescriptionBedrockApiOptions) =
      ⟨"anthropic.claude-3-sonnet-20240229-v1:0", none, none, 30, 3, 0.5, 200, 250,
        "Describe this image in a few sentences.", "amazon-bedrock"⟩ ∧
    PictureDescriptionBedrockApiOptions.kind = "bedrock_api" :=
  ⟨rfl, rfl⟩

theorem dispatchWaves_bounded_and_complete (W : Nat) (hW : 1 ≤ W) (l : List Nat) :
    (∀ wave ∈ dispatchWaves W l, wave.length ≤ W) ∧ (dispatchWaves W l).flatten = l := by
  induction l using dispatchWaves.induct W with
  | case1 => simp [dispatchWaves]
  | case2 x xs ih =>
    rw [dispatchWaves]
    constructor
    · intro wave hw
      rcases List.mem_cons.mp hw with h | h
      · subst h
        simp only [List.length_cons, List.length_take]
        omega
      · exact ih.1 wave h
    · rw [List.flatten_cons, ih.2, List.cons_append, List.take_append_drop]

/-- C7: with a positive configured worker count, the modelled bounded
dispatch of a batch keeps at most max_workers API calls in flight in every
wave, and the waves together cover exactly the submitted batch in order. -/
theorem bedrock_dispatch_bounded_by_max_workers
    (opts : PictureDescriptionBedrockApiOptions) (imgs : List Nat)
    (hW : 0 < opts.max_workers) :
    (∀ wave ∈ dispatchWaves opts.max_workers.toNat imgs,
        wave.length ≤ opts.max_workers.toNat) ∧
    (dispatchWaves opts.max_workers.toNat imgs).flatten = imgs :=
  dispatchWaves_bounded_and_complete opts.max_workers.toNat (by omega) imgs

theorem bedrock_dispatch_bounded_witness :
    (0 : Int) < ({} : PictureDescriptionBedrockApiOptions).max_workers ∧
    ((∀ wave ∈ dispatchWaves ({} : PictureDescriptionBedrockApiOptions).max_workers.toNat
        [10, 20, 30, 40],
        wave.length ≤ ({} : PictureDescriptionBedrockApiOptions).max_workers.toNat) ∧
      (dispatchWaves ({} : PictureDescriptionBedrockApiOptions).max_workers.toNat
        [10, 20, 30, 40]).flatten = [10, 20, 30, 40]) :=
  ⟨by decide, bedrock_dispatch_bounded_by_max_workers {} [10, 20, 30, 40] (by decide)⟩

/-- C8: whenever one of the early-exit conditions holds (remote services
disabled, model construction raising, no picture yielding a retrievable
image, or the batch annotation call raising), add_bedrock_picture_descriptions
returns the document unchanged. -/
theorem add_bedrock_early_exit_no_mutation
    (doc : DoclingDocument) (opts : PictureDescriptionBedrockApiOptions)
    (ers initOk : Bool) (ann : List Nat → Except Unit (List String))
    (h : ers = false ∨ initOk = false ∨ imagesToProcess doc = [] ∨
         ann (imagesToProcess doc) = .error ()) :
    add_bedrock_picture_descriptions doc opts ers initOk ann = doc := by
  unfold add_bedrock_picture_descriptions
  rcases h with h | h | h | h
  · simp [h]
  · simp [h]
  · simp [h]
  · simp [h]

theorem add_bedrock_early_exit_witness :
    (false = false ∨ true = false ∨
      imagesToProcess ⟨[], [], []⟩ = [] ∨
      (fun _ : List Nat => (Except.error () : Except Unit (List String)))
        (imagesToProcess ⟨[], [], []⟩) = .error ()) ∧
    add_bedrock_picture_descriptions ⟨[], [], []⟩ {} false true
      (fun _ => .error ()) = ⟨[], [], []⟩ :=
  ⟨Or.inl rfl,
    add_bedrock_early_exit_no_mutation ⟨[], [], []⟩ {} false true
      (fun _ => .error ()) (Or.inl rfl)⟩

/-- C10: describe_image is total and returns: "Error: " ++ e when the model
constructor, the image load, or the annotation call raises with message e;
"No description was generated" when the adapter yields an empty list; and
the first description otherwise. -/
theorem describe_image_total_spec
    (initE : Except String Unit) (loadE : Except String Nat)
    (ann : Nat → Except String (List String)) :
    (∀ e, initE = .error e → describe_image initE loadE ann = "Error: " ++ e) ∧
    (∀ e, initE = .ok () → loadE = .error e →
        describe_image initE loadE ann = "Error: " ++ e) ∧
    (∀ img e, initE = .ok () → loadE = .ok img → ann img = .error e →
        describe_image initE loadE ann = "Error: " ++ e) ∧
    (∀ img, initE = .ok () → loadE = .ok img → ann img = .ok [] →
        describe_image initE loadE ann = "No description was generated") ∧
    (∀ img d ds, initE = .ok () → loadE = .ok img → ann img = .ok (d :: ds) →
        describe_image initE loadE ann = d) := by
  refine ⟨?_, ?_, ?_, ?_, ?_⟩
  · intro e he
    subst he
    rfl
  · intro e h1 h2
    subst h1
    subst h2
    rfl
  · intro img e h1 h2 h3
    subst h1
    subst h2
    simp [describe_image, h3]
  · intro img h1 h2 h3
    subst h1
    subst h2
    simp [describe_image, h3]
  · intro img d ds h1 h2 h3
    subst h1
    subst h2
    simp [describe_image, h3]

theorem describe_image_total_spec_witness :
    describe_image (.error "boom") (.ok 0) (fun _ => .ok []) = "Error: " ++ "boom" :=
  (describe_image_total_spec (.error "boom") (.ok 0) (fun _ => .ok [])).1 "boom" rfl

/-- C1 counterexample: the batch annotation returns the description
"Error: denied" for a picture with a retrievable image, and the splicing
loop attaches nothing at all: the document comes back unchanged, with the
annotations and captions of the picture still empty. -/
theorem descriptions_spliced_counterexample :
    add_bedrock_picture_descriptions
        ⟨[⟨"#/pictures/0", none, [], [], Except.ok (some 5)⟩], [], []⟩ {} true true
        (fun _ => .ok ["Error: denied"]) =
      ⟨[⟨"#/pictures/0", none, [], [], Except.ok (some 5)⟩], [], []⟩ := by
  decide

/-- C1 (amended): in a document whose pictures' first caption references
resolve, every returned description that does not start with "Error" or
"Unsupported" is spliced back: it is attached to its picture as a
description annotation, and the picture ends with a first caption
reference naming a text node of the final document whose text contains
the description. -/
theorem descriptions_spliced_into_document
    (doc : DoclingDocument) (opts : PictureDescriptionBedrockApiOptions)
    (ann : List Nat → Except Unit (List String)) (ds : List String)
    (hwf : capResolves doc = true)
    (hann : ann (imagesToProcess doc) = .ok ds)
    (k i : Nat) (d : String)
    (hk : (processedPairs doc ds).get? k = some (i, d))
    (hd : errorish d = false) :
    ∃ pic',
      (add_bedrock_picture_descriptions doc opts true true ann).pictures.get? i
        = some pic' ∧
      AnnotationData.desc ⟨d, bedrockModelProvenance opts⟩ ∈ pic'.annotations ∧
      ∃ r, pic'.captions.head? = some r ∧
        ∃ t ∈ (add_bedrock_picture_descriptions doc opts true true ann).texts,
          t.self_ref = r.cref ∧ strContains t.text d := by
  obtain ⟨pic, hp, _⟩ := processedPairs_index doc ds k i d hk
  have hne := processedPairs_nonempty_images doc ds k i d hk
  rw [add_bedrock_run doc opts ann ds hne hann]
  obtain ⟨pic', hget, hann', hcap⟩ :=
    spliceAll_target (bedrockModelProvenance opts) (processedPairs doc ds) doc k i d
      (processedPairs_fst_pairwise doc ds) hk hd pic hp
  refine ⟨pic', hget, ?_, ?_⟩
  · rw [hann']
    exact List.mem_append_right _ (List.mem_singleton_self _)
  · rcases hcap with ⟨hc0, r, hcr, t, ht, htr, htc⟩ | ⟨r, l, hc0, hcr, himp⟩
    · exact ⟨r, by rw [hcr]; rfl, t, ht, htr, htc⟩
    · have hres : ∃ t ∈ doc.texts, t.self_ref = r.cref :=
        capResolves_sound doc hwf pic (List.get?_mem hp) r l hc0
      obtain ⟨t, ht, htr, htc⟩ := himp hres
      exact ⟨r, by rw [hcr, hc0]; rfl, t, ht, htr, htc⟩

theorem descriptions_spliced_witness :
    capResolves ⟨[⟨"#/pictures/0", none, [], [], Except.ok (some 7)⟩], [], []⟩ = true ∧
    (processedPairs ⟨[⟨"#/pictures/0", none, [], [], Except.ok (some 7)⟩], [], []⟩
        ["nice"]).get? 0 = some (0, "nice") ∧
    errorish "nice" = false ∧
    (∃ pic',
      (add_bedrock_picture_descriptions
          ⟨[⟨"#/pictures/0", none, [], [], Except.ok (some 7)⟩], [], []⟩ {} true true
          (fun _ => .ok ["nice"])).pictures.get? 0 = some pic' ∧
      AnnotationData.desc ⟨"nice", bedrockModelProvenance {}⟩ ∈ pic'.annotations ∧
      ∃ r, pic'.captions.head? = some r ∧
        ∃ t ∈ (add_bedrock_picture_descriptions
            ⟨[⟨"#/pictures/0", none, [], [], Except.ok (some 7)⟩], [], []⟩ {} true true
            (fun _ => .ok ["nice"])).texts,
          t.self_ref = r.cref ∧ strContains t.text "nice") :=
  ⟨by decide, by decide, by decide,
    descriptions_spliced_into_document
      ⟨[⟨"#/pictures/0", none, [], [], Except.ok (some 7)⟩], [], []⟩ {}
      (fun _ => .ok ["nice"]) ["nice"] (by decide) rfl 0 0 "nice" (by decide) (by decide)⟩

/-- C3 counterexample: the first (and only) description produced by the
batch annotation starts with "Error", and it is not attached to the first
retrievable picture: the document comes back unchanged. -/
theorem positional_mapping_counterexample :
    add_bedrock_picture_descriptions
        ⟨[⟨"#/pictures/0", none, [], [], Except.ok (some 1)⟩], [], []⟩ {} true true
        (fun _ => .ok ["Error: quota"]) =
      ⟨[⟨"#/pictures/0", none, [], [], Except.ok (some 1)⟩], [], []⟩ := by
  decide

/-- C3 (amended): the fan-in is positional for accepted descriptions: the
k-th description, when it does not start with "Error" or "Unsupported", is
appended to the annotations of exactly the k-th picture with a retrievable
image, and every annotation any picture gains comes from a description
paired with that same picture. -/
theorem positional_mapping
    (doc : DoclingDocument) (opts : PictureDescriptionBedrockApiOptions)
    (ann : List Nat → Except Unit (List String)) (ds : List String)
    (hann : ann (imagesToProcess doc) = .ok ds) :
    (∀ k i d, (processedPairs doc ds).get? k = some (i, d) → errorish d = false →
      ∃ pic pic', doc.pictures.get? i = some pic ∧
        (add_bedrock_picture_descriptions doc opts true true ann).pictures.get? i
          = some pic' ∧
        pic'.annotations = pic.annotations ++
          [AnnotationData.desc ⟨d, bedrockModelProvenance opts⟩]) ∧
    (∀ j pic pic', doc.pictures.get? j = some pic →
      (add_bedrock_picture_descriptions doc opts true true ann).pictures.get? j
        = some pic' →
      ∀ a ∈ pic'.annotations, a ∈ pic.annotations ∨
        ∃ d, (j, d) ∈ processedPairs doc ds ∧
          a = AnnotationData.desc ⟨d, bedrockModelProvenance opts⟩) := by
  constructor
  · intro k i d hk hd
    obtain ⟨pic, hp, _⟩ := processedPairs_index doc ds k i d hk
    have hne := processedPairs_nonempty_images doc ds k i d hk
    rw [add_bedrock_run doc opts ann ds hne hann]
    obtain ⟨pic', hget, hann', _⟩ :=
      spliceAll_target (bedrockModelProvenance opts) (processedPairs doc ds) doc k i d
        (processedPairs_fst_pairwise doc ds) hk hd pic hp
    exact ⟨pic, pic', hp, hget, hann'⟩
  · intro j pic pic' hp hp' a ha
    cases hne : (imagesToProcess doc).isEmpty with
    | true =>
      rw [add_bedrock_noop_of_empty doc opts ann hne] at hp'
      rw [hp] at hp'
      obtain rfl : pic = pic' := Option.some.inj hp'
      exact Or.inl ha
    | false =>
      rw [add_bedrock_run doc opts ann ds hne hann] at hp'
      obtain ⟨pic'', hget, _, _, _, ⟨tail, htail, htm⟩, _⟩ :=
        spliceAll_frame (bedrockModelProvenance opts) (processedPairs doc ds)
          doc j pic hp
      rw [hget] at hp'
      obtain rfl : pic'' = pic' := Option.some.inj hp'
      rw [htail] at ha
      rcases List.mem_append.mp ha with ha | ha
      · exact Or.inl ha
      · obtain ⟨d, hd, he⟩ := htm a ha
        exact Or.inr ⟨d, hd, he⟩

theorem positional_mapping_witness :
    ((processedPairs ⟨[⟨"#/pictures/0", none, [], [], Except.ok (some 3)⟩], [], []⟩
        ["good"]).get? 0 = some (0, "good")) ∧
    errorish "good" = false ∧
    (∃ pic pic',
      (⟨[⟨"#/pictures/0", none, [], [], Except.ok (some 3)⟩], [], []⟩ :
          DoclingDocument).pictures.get? 0 = some pic ∧
      (add_bedrock_picture_descriptions
          ⟨[⟨"#/pictures/0", none, [], [], Except.ok (some 3)⟩], [], []⟩ {} true true
          (fun _ => .ok ["good"])).pictures.get? 0 = some pic' ∧
      pic'.annotations = pic.annotations ++
        [AnnotationData.desc ⟨"good", bedrockModelProvenance {}⟩]) := by
  have h := (positional_mapping
      ⟨[⟨"#/pictures/0", none, [], [], Except.ok (some 3)⟩], [], []⟩ {}
      (fun _ => .ok ["good"]) ["good"] rfl).1 0 0 "good" (by decide) (by decide)
  exact ⟨by decide, by decide, h⟩

/-- C4: for every accepted description, a PictureDescriptionData payload
holding the generated text is appended at the end of the annotations list
of its picture, and every picture keeps its pre-existing annotations
unchanged as a preserved initial segment. -/
theorem annotation_appended_in_place
    (doc : DoclingDocument) (opts : PictureDescriptionBedrockApiOptions)
    (ann : List Nat → Except Unit (List String)) (ds : List String)
    (hann : ann (imagesToProcess doc) = .ok ds) :
    (∀ k i d, (processedPairs doc ds).get? k = some (i, d) → errorish d = false →
      ∃ pic pic', doc.pictures.get? i = some pic ∧
        (add_bedrock_picture_descriptions doc opts true true ann).pictures.get? i
          = some pic' ∧
        pic'.annotations = pic.annotations ++
          [AnnotationData.desc ⟨d, bedrockModelProvenance opts⟩]) ∧
    (∀ j pic pic', doc.pictures.get? j = some pic →
      (add_bedrock_picture_descriptions doc opts true true ann).pictures.get? j
        = some pic' →
      ∃ tail, pic'.annotations = pic.annotations ++ tail) := by
  constructor
  · intro k i d hk hd
    obtain ⟨pic, hp, _⟩ := processedPairs_index doc ds k i d hk
    have hne := processedPairs_nonempty_images doc ds k i d hk
    rw [add_bedrock_run doc opts ann ds hne hann]
    obtain ⟨pic', hget, hann', _⟩ :=
      spliceAll_target (bedrockModelProvenance opts) (processedPairs doc ds) doc k i d
        (processedPairs_fst_pairwise doc ds) hk hd pic hp
    exact ⟨pic, pic', hp, hget, hann'⟩
  · intro j pic pic' hp hp'
    cases hne : (imagesToProcess doc).isEmpty with
    | true =>
      rw [add_bedrock_noop_of_empty doc opts ann hne] at hp'
      rw [hp] at hp'
      obtain rfl : pic = pic' := Option.some.inj hp'
      exact ⟨[], (List.append_nil _).symm⟩
    | false =>
      rw [add_bedrock_run doc opts ann ds hne hann] at hp'
      obtain ⟨pic'', hget, _, _, _, ⟨tail, htail, _⟩, _⟩ :=
        spliceAll_frame (bedrockModelProvenance opts) (processedPairs doc ds)
          doc j pic hp
      rw [hget] at hp'
      obtain rfl : pic'' = pic' := Option.some.inj hp'
      exact ⟨tail, htail⟩

theorem annotation_appended_witness :
    ((processedPairs
        ⟨[⟨"#/pictures/0", none, [],
            [AnnotationData.other "pre"], Except.ok (some 4)⟩], [], []⟩
        ["txt"]).get? 0 = some (0, "txt")) ∧
    errorish "txt" = false ∧
    (∃ pic pic',
      (⟨[⟨"#/pictures/0", none, [],
          [AnnotationData.other "pre"], Except.ok (some 4)⟩], [], []⟩ :
          DoclingDocument).pictures.get? 0 = some pic ∧
      (add_bedrock_picture_descriptions
          ⟨[⟨"#/pictures/0", none, [],
              [AnnotationData.other "pre"], Except.ok (some 4)⟩], [], []⟩ {} true true
          (fun _ => .ok ["txt"])).pictures.get? 0 = some pic' ∧
      pic'.annotations = pic.annotations ++
        [AnnotationData.desc ⟨"txt", bedrockModelProvenance {}⟩]) := by
  have h := (annotation_appended_in_place
      ⟨[⟨"#/pictures/0", none, [],
          [AnnotationData.other "pre"], Except.ok (some 4)⟩], [], []⟩ {}
      (fun _ => .ok ["txt"]) ["txt"] rfl).1 0 0 "txt" (by decide) (by decide)
  exact ⟨by decide, by decide, h⟩

/-- C5 counterexample: a picture that already has a caption receives a
description ("desc" is appended to its annotations), yet its captions list
is left exactly as it was — no caption reference is appended; only the
text of the existing caption node is extended. -/
theorem caption_reference_counterexample :
    add_bedrock_picture_descriptions
        ⟨[⟨"#/pictures/0", none, [⟨"#/texts/0"⟩], [], Except.ok (some 2)⟩],
          [⟨"#/texts/0", "caption", "cap", none⟩], []⟩ {} true true
        (fun _ => .ok ["desc"]) =
      ⟨[⟨"#/pictures/0", none, [⟨"#/texts/0"⟩],
          [AnnotationData.desc ⟨"desc", "amazon-bedrock"⟩], Except.ok (some 2)⟩],
        [⟨"#/texts/0", "caption", "cap\n\nImage Description: desc", none⟩], []⟩ := by
  decide

/-- C5 (amended): when an accepted description is spliced in, a caption
reference is appended to the picture's captions only if the picture had no
caption: then its captions become a single reference naming a text node of
the final document containing the description.  A picture that already had
captions keeps its captions list unchanged. -/
theorem caption_reference_appended_when_absent
    (doc : DoclingDocument) (opts : PictureDescriptionBedrockApiOptions)
    (ann : List Nat → Except Unit (List String)) (ds : List String)
    (hann : ann (imagesToProcess doc) = .ok ds)
    (k i : Nat) (d : String)
    (hk : (processedPairs doc ds).get? k = some (i, d))
    (hd : errorish d = false) :
    ∃ pic pic', doc.pictures.get? i = some pic ∧
      (add_bedrock_picture_descriptions doc opts true true ann).pictures.get? i
        = some pic' ∧
      ((pic.captions = [] ∧ ∃ r, pic'.captions = [r] ∧
          ∃ t ∈ (add_bedrock_picture_descriptions doc opts true true ann).texts,
            t.self_ref = r.cref ∧ strContains t.text d) ∨
        (pic.captions ≠ [] ∧ pic'.captions = pic.captions)) := by
  obtain ⟨pic, hp, _⟩ := processedPairs_index doc ds k i d hk
  have hne := processedPairs_nonempty_images doc ds k i d hk
  rw [add_bedrock_run doc opts ann ds hne hann]
  obtain ⟨pic', hget, _, hcap⟩ :=
    spliceAll_target (bedrockModelProvenance opts) (processedPairs doc ds) doc k i d
      (processedPairs_fst_pairwise doc ds) hk hd pic hp
  refine ⟨pic, pic', hp, hget, ?_⟩
  rcases hcap with ⟨hc0, r, hcr, hres⟩ | ⟨r, l, hc0, hcr, _⟩
  · exact Or.inl ⟨hc0, r, hcr, hres⟩
  · refine Or.inr ⟨?_, hcr⟩
    rw [hc0]
    exact List.cons_ne_nil r l

theorem caption_reference_witness :
    ((processedPairs ⟨[⟨"#/pictures/0", none, [], [], Except.ok (some 9)⟩], [], []⟩
        ["fine"]).get? 0 = some (0, "fine")) ∧
    errorish "fine" = false ∧
    (∃ pic pic',
      (⟨[⟨"#/pictures/0", none, [], [], Except.ok (some 9)⟩], [], []⟩ :
          DoclingDocument).pictures.get? 0 = some pic ∧
      (add_bedrock_picture_descriptions
          ⟨[⟨"#/pictures/0", none, [], [], Except.ok (some 9)⟩], [], []⟩ {} true true
          (fun _ => .ok ["fine"])).pictures.get? 0 = some pic' ∧
      ((pic.captions = [] ∧ ∃ r, pic'.captions = [r] ∧
          ∃ t ∈ (add_bedrock_picture_descriptions
              ⟨[⟨"#/pictures/0", none, [], [], Except.ok (some 9)⟩], [], []⟩ {} true true
              (fun _ => .ok ["fine"])).texts,
            t.self_ref = r.cref ∧ strContains t.text "fine") ∨
        (pic.captions ≠ [] ∧ pic'.captions = pic.captions))) := by
  have h := caption_reference_appended_when_absent
      ⟨[⟨"#/pictures/0", none, [], [], Except.ok (some 9)⟩], [], []⟩ {}
      (fun _ => .ok ["fine"]) ["fine"] rfl 0 0 "fine" (by decide) (by decide)
  exact ⟨by decide, by decide, h⟩

/-- C6: every annotation a picture gains from the splicing run is a
description payload whose provenance is the configured provenance tag
exposed by the model, and the default tag of the options record is
"amazon-bedrock". -/
theorem provenance_recorded
    (doc : DoclingDocument) (opts : PictureDescriptionBedrockApiOptions)
    (ann : List Nat → Except Unit (List String)) (ds : List String)
    (hann : ann (imagesToProcess doc) = .ok ds) :
    (∀ j pic pic', doc.pictures.get? j = some pic →
      (add_bedrock_picture_descriptions doc opts true true ann).pictures.get? j
        = some pic' →
      ∀ a ∈ pic'.annotations, a ∉ pic.annotations →
        ∃ txt, a = AnnotationData.desc ⟨txt, bedrockModelProvenance opts⟩) ∧
    bedrockModelProvenance opts = opts.provenance ∧
    ({} : PictureDescriptionBedrockApiOptions).provenance = "amazon-bedrock" := by
  refine ⟨?_, rfl, rfl⟩
  intro j pic pic' hp hp' a ha hnot
  cases hne : (imagesToProcess doc).isEmpty with
  | true =>
    rw [add_bedrock_noop_of_empty doc opts ann hne] at hp'
    rw [hp] at hp'
    obtain rfl : pic = pic' := Option.some.inj hp'
    exact absurd ha hnot
  | false =>
    rw [add_bedrock_run doc opts ann ds hne hann] at hp'
    obtain ⟨pic'', hget, _, _, _, ⟨tail, htail, htm⟩, _⟩ :=
      spliceAll_frame (bedrockModelProvenance opts) (processedPairs doc ds)
        doc j pic hp
    rw [hget] at hp'
    obtain rfl : pic'' = pic' := Option.some.inj hp'
    rw [htail] at ha
    rcases List.mem_append.mp ha with ha | ha
    · exact absurd ha hnot
    · obtain ⟨d, _, he⟩ := htm a ha
      exact ⟨d, he⟩

theorem provenance_recorded_witness :
    (∀ j pic pic',
      (⟨[⟨"#/pictures/0", none, [], [], Except.ok (some 6)⟩], [], []⟩ :
          DoclingDocument).pictures.get? j = some pic →
      (add_bedrock_picture_descriptions
          ⟨[⟨"#/pictures/0", none, [], [], Except.ok (some 6)⟩], [], []⟩ {} true true
          (fun _ => .ok ["words"])).pictures.get? j = some pic' →
      ∀ a ∈ pic'.annotations, a ∉ pic.annotations →
        ∃ txt, a = AnnotationData.desc ⟨txt, bedrockModelProvenance {}⟩) ∧
    bedrockModelProvenance {} = ({} : PictureDescriptionBedrockApiOptions).provenance ∧
    ({} : PictureDescriptionBedrockApiOptions).provenance = "amazon-bedrock" :=
  provenance_recorded
    ⟨[⟨"#/pictures/0", none, [], [], Except.ok (some 6)⟩], [], []⟩ {}
    (fun _ => .ok ["words"]) ["words"] rfl

/-- C9: a description that starts with "Error" or "Unsupported" attaches
nothing for its picture: the splicing step for such a description is the
identity on any document (no annotation appended, no caption created or
modified, no reference added), and in the full run that description's
picture comes out exactly as it went in. -/
theorem error_description_attaches_nothing
    (doc : DoclingDocument) (opts : PictureDescriptionBedrockApiOptions)
    (ann : List Nat → Except Unit (List String)) (ds : List String)
    (hann : ann (imagesToProcess doc) = .ok ds)
    (k i : Nat) (d : String)
    (hk : (processedPairs doc ds).get? k = some (i, d))
    (hd : errorish d = true) :
    (∀ c j, spliceOne c j d (bedrockModelProvenance opts) = c) ∧
    (add_bedrock_picture_descriptions doc opts true true ann).pictures.get? i
      = doc.pictures.get? i := by
  constructor
  · intro c j
    unfold spliceOne
    rw [if_pos hd]
  · have hne := processedPairs_nonempty_images doc ds k i d hk
    rw [add_bedrock_run doc opts ann ds hne hann]
    exact spliceAll_skip (bedrockModelProvenance opts) (processedPairs doc ds) doc k i d
      (processedPairs_fst_pairwise doc ds) hk hd

theorem error_description_witness :
    ((processedPairs ⟨[⟨"#/pictures/0", none, [], [], Except.ok (some 8)⟩], [], []⟩
        ["Unsupported format"]).get? 0 = some (0, "Unsupported format")) ∧
    errorish "Unsupported format" = true ∧
    ((∀ c j, spliceOne c j "Unsupported format" (bedrockModelProvenance {}) = c) ∧
      (add_bedrock_picture_descriptions
          ⟨[⟨"#/pictures/0", none, [], [], Except.ok (some 8)⟩], [], []⟩ {} true true
          (fun _ => .ok ["Unsupported format"])).pictures.get? 0 =
        (⟨[⟨"#/pictures/0", none, [], [], Except.ok (some 8)⟩], [], []⟩ :
            DoclingDocument).pictures.get? 0) := by
  have h := error_description_attaches_nothing
      ⟨[⟨"#/pictures/0", none, [], [], Except.ok (some 8)⟩], [], []⟩ {}
      (fun _ => .ok ["Unsupported format"]) ["Unsupported format"] rfl
      0 0 "Unsupported format" (by decide) (by decide)
  exact ⟨by decide, by decide, h⟩

end DoclingBedrock
